import Mathlib

/-!
Shallow embedding of `src/main.c` (minimal-todo, an ncurses todo TUI) and
verification of its specified behavior: the filter/search predicate, the
status-filter cycling, persistence load/save, and the mutating operations
dispatched from the key loop.  Strings are modelled as `List Char` (C
strings without the terminating NUL), machine ints as `Int`, and the
ncurses prompts as explicit input parameters.
-/

/-- C constant `MAX_TODOS`. -/
def MAX_TODOS : Nat := 100

/-- C constant `MAX_LENGTH` (size of the `text`/`category` buffers,
including the terminating NUL). -/
def MAX_LENGTH : Nat := 128

/-- ASCII `tolower`, as used by `strcasecmp`/`strcasestr` in the C locale. -/
def lcChar (c : Char) : Char :=
  if 'A' ≤ c ∧ c ≤ 'Z' then Char.ofNat (c.toNat + 32) else c

/-- `lhs` begins with `pre` (helper for the substring scan). -/
def beginsWith : List Char → List Char → Bool
  | _, [] => true
  | [], _ :: _ => false
  | h :: hs, n :: ns => h == n && beginsWith hs ns

/-- `needle` occurs as a contiguous sublist of `hay` (the positive case of
C `strstr`-style scanning). -/
def hasSub (needle : List Char) : List Char → Bool
  | [] => beginsWith [] needle
  | c :: hs => beginsWith (c :: hs) needle || hasSub needle hs

/-- Model of `strcasecmp(a, b) == 0`: case-insensitive equality of the two
full strings. -/
def strcaseEq (a b : List Char) : Bool :=
  a.map lcChar == b.map lcChar

/-- Model of `strcasestr(hay, needle) != NULL`: `needle` occurs in `hay`
case-insensitively. -/
def strcasestrB (hay needle : List Char) : Bool :=
  hasSub (needle.map lcChar) (hay.map lcChar)

/-- The C struct `Todo`: fixed-size text and category buffers (modelled as
their string contents), a `time_t` due date and an `int` done flag (only
ever 0/1 in the program, modelled as `Bool`). -/
structure Todo where
  text : List Char
  category : List Char
  due_date : Int
  done : Bool
deriving DecidableEq, Repr

/-- The three filter globals of `main.c`: `filter_category`, `filter_done`
(`-1`: all, `0`: pending, `1`: done) and `search_term`. -/
structure FilterState where
  filter_category : List Char
  filter_done : Int
  search_term : List Char
deriving DecidableEq, Repr

/-- C conversion of the modelled `done` flag back to the `int` the source
compares against `filter_done`. -/
def b2i (b : Bool) : Int := if b then 1 else 0

/-- `todo_matches_filter` from `main.c`: early-out on each of the status,
category and search criteria, else visible. -/
def todo_matches_filter (f : FilterState) (t : Todo) : Bool :=
  if f.filter_done != -1 && b2i t.done != f.filter_done then
    false
  else if !f.filter_category.isEmpty && !strcaseEq t.category f.filter_category then
    false
  else if !f.search_term.isEmpty && !strcasestrB t.text f.search_term
          && !strcasestrB t.category f.search_term then
    false
  else
    true

/-- Application state: the store (`todos`, whose length is `todo_count`),
the selection cursor and the filter globals of `main.c`. -/
structure AppState where
  todos : List Todo
  selected : Int
  filt : FilterState
deriving DecidableEq, Repr

/-- Update the element at index `i` in place (C `todos[i].field = ...`);
out-of-range indices leave the list unchanged. -/
def listUpd {α : Type} (l : List α) (i : Nat) (g : α → α) : List α :=
  match l, i with
  | [], _ => []
  | x :: xs, 0 => g x :: xs
  | x :: xs, n + 1 => x :: listUpd xs n g

/-- `add_todo` from `main.c`: given the line read by `getstr`, append a
record (text truncated by `strncpy` to `MAX_LENGTH - 1` chars, empty
category, zero due date, not done) when the line is non-empty and there is
capacity, and move the selection to the new last index. -/
def add_todo (input : List Char) (s : AppState) : AppState :=
  if input ≠ [] ∧ s.todos.length < MAX_TODOS then
    { s with
      todos := s.todos ++ [⟨input.take (MAX_LENGTH - 1), [], 0, false⟩],
      selected := ((s.todos.length : Int) + 1) - 1 }
  else s

/-- `delete_todo(idx)` from `main.c`: shift records after `idx` left by
one, decrement the count (the outer `.take` models the unconditional
`todo_count--`), and pull the selection back when it fell at or past the
new end (but not below 0). -/
def delete_todo (idx : Nat) (s : AppState) : AppState :=
  let ts := (s.todos.take idx ++ s.todos.drop (idx + 1)).take (s.todos.length - 1)
  { s with
    todos := ts,
    selected :=
      if (ts.length : Int) ≤ s.selected ∧ 0 < s.selected then s.selected - 1
      else s.selected }

/-- `toggle_todo(idx)` from `main.c`. -/
def toggle_todo (idx : Nat) (s : AppState) : AppState :=
  { s with todos := listUpd s.todos idx (fun t => { t with done := !t.done }) }

/-- `edit_todo(idx)` from `main.c`: replace the text by the entered line
(truncated by `strncpy`) unless the line is empty. -/
def edit_todo (input : List Char) (idx : Nat) (s : AppState) : AppState :=
  if input ≠ [] then
    let ts := listUpd s.todos idx (fun t => { t with text := input.take (MAX_LENGTH - 1) })
    { s with todos := ts }
  else s

/-- `set_category(idx)` from `main.c`: replace the category
unconditionally by the entered line (truncated by `strncpy`). -/
def set_category (input : List Char) (idx : Nat) (s : AppState) : AppState :=
  let ts := listUpd s.todos idx (fun t => { t with category := input.take (MAX_LENGTH - 1) })
  { s with todos := ts }

/-- One `%d` conversion of `sscanf`: skip C whitespace, read an optional
sign and at least one digit; returns the value and the unconsumed rest. -/
def isCWs (c : Char) : Bool :=
  c = ' ' ∨ c = '\t' ∨ c = '\n' ∨ c = '\r' ∨ c = '\x0b' ∨ c = '\x0c'

/-- Leading decimal digits of a string, and the rest. -/
def spanDigits : List Char → List Char × List Char
  | [] => ([], [])
  | c :: cs =>
    if '0' ≤ c ∧ c ≤ '9' then
      let p := spanDigits cs
      (c :: p.1, p.2)
    else ([], c :: cs)

/-- Value of a digit string. -/
def digitsVal (ds : List Char) : Nat :=
  ds.foldl (fun a c => a * 10 + (c.toNat - '0'.toNat)) 0

/-- `sscanf` `%d`: `none` on matching failure. -/
def scanInt (s : List Char) : Option (Int × List Char) :=
  let s1 := s.dropWhile isCWs
  match s1 with
  | '-' :: rest =>
    let p := spanDigits rest
    if p.1 = [] then none else some (-(digitsVal p.1 : Int), p.2)
  | '+' :: rest =>
    let p := spanDigits rest
    if p.1 = [] then none else some ((digitsVal p.1 : Int), p.2)
  | _ =>
    let p := spanDigits s1
    if p.1 = [] then none else some ((digitsVal p.1 : Int), p.2)

/-- `sscanf(date_str, "%d-%d-%d", ...) == 3`: three `%d` conversions
separated by literal `-` characters; `none` when fewer than three
conversions succeed. -/
def scanDate (s : List Char) : Option (Int × Int × Int) :=
  match scanInt s with
  | none => none
  | some (a, r1) =>
    match r1 with
    | '-' :: r2 =>
      match scanInt r2 with
      | none => none
      | some (b, r3) =>
        match r3 with
        | '-' :: r4 =>
          match scanInt r4 with
          | none => none
          | some (c, _) => some (a, b, c)
        | _ => none
    | _ => none

/-- `set_due_date(idx)` from `main.c`: empty input clears the due date;
input parsing as three `%d` components stores
`mktime` of the adjusted components (`tm_year -= 1900`, `tm_mon -= 1`);
any other input leaves the record unchanged.  `mkt` abstracts `mktime`
over the three adjusted `struct tm` fields (libc- and timezone-dependent). -/
def set_due_date (mkt : Int → Int → Int → Int) (input : List Char) (idx : Nat)
    (s : AppState) : AppState :=
  if input = [] then
    { s with todos := listUpd s.todos idx (fun t => { t with due_date := 0 }) }
  else
    match scanDate input with
    | some (y, m, d) =>
      let ts := listUpd s.todos idx (fun t => { t with due_date := mkt (y - 1900) (m - 1) d })
      { s with todos := ts }
    | none => s

/-- `filter_by_category` from `main.c`: store the entered line in
`filter_category` and reset the selection to 0. -/
def filter_by_category (input : List Char) (s : AppState) : AppState :=
  { s with filt := { s.filt with filter_category := input }, selected := 0 }

/-- `filter_by_status` from `main.c`:
`filter_done = (filter_done + 1) % 3 - 1` (C `%` truncates toward zero,
i.e. `Int.tmod`) and reset the selection to 0. -/
def filter_by_status (s : AppState) : AppState :=
  { s with
    filt := { s.filt with filter_done := Int.tmod (s.filt.filter_done + 1) 3 - 1 },
    selected := 0 }

/-- `search_todos` from `main.c`: store the entered line in `search_term`
and reset the selection to 0. -/
def search_todos (input : List Char) (s : AppState) : AppState :=
  { s with filt := { s.filt with search_term := input }, selected := 0 }

/-- One key press of the dispatch loop in `main` (keys not in the switch
are `other`); prompting keys carry the line the user enters at the
prompt. -/
inductive Key where
  | keyJ
  | keyK
  | keyA (input : List Char)
  | keyD
  | keySpace
  | keyE (input : List Char)
  | keyBigD (input : List Char)
  | keyC (input : List Char)
  | keyBigC (input : List Char)
  | keyF
  | keySlash (input : List Char)
  | keyR
  | other
deriving DecidableEq

/-- One iteration of the `switch (ch)` dispatch in `main` (`mkt` abstracts
`mktime`, see `set_due_date`): navigation moves the clamped selection,
mutating keys are guarded by `todo_count > 0`, `r` resets the three filter
globals in place. -/
def step (mkt : Int → Int → Int → Int) (k : Key) (s : AppState) : AppState :=
  match k with
  | .keyJ =>
    if s.selected < (s.todos.length : Int) - 1 then { s with selected := s.selected + 1 }
    else s
  | .keyK =>
    if 0 < s.selected then { s with selected := s.selected - 1 } else s
  | .keyA input => add_todo input s
  | .keyD => if 0 < s.todos.length then delete_todo s.selected.toNat s else s
  | .keySpace => if 0 < s.todos.length then toggle_todo s.selected.toNat s else s
  | .keyE input => if 0 < s.todos.length then edit_todo input s.selected.toNat s else s
  | .keyBigD input =>
    if 0 < s.todos.length then set_due_date mkt input s.selected.toNat s else s
  | .keyC input => if 0 < s.todos.length then set_category input s.selected.toNat s else s
  | .keyBigC input => filter_by_category input s
  | .keyF => filter_by_status s
  | .keySlash input => search_todos input s
  | .keyR => { s with filt := ⟨[], -1, []⟩ }
  | .other => s

/-- The on-disk file `.todos.dat` as `load_todos` can encounter it:
absent (`fopen` fails), present but shorter than the `int` count header,
or a header followed by however many complete fixed-size records the file
actually contains. -/
inductive DataFile where
  | missing
  | noHeader
  | withData (hdr : Int) (recs : List Todo)
deriving DecidableEq

/-- The all-zero-bytes record: zero-initialized global `todos` slots read
back as this when `fread` supplies fewer records than the header announced. -/
def zeroTodo : Todo := ⟨[], [], 0, false⟩

/-- `save_todos` from `main.c` (successful `fopen`/`fwrite`): write
`todo_count` then the first `todo_count` records. -/
def save_todos (ts : List Todo) : DataFile :=
  DataFile.withData (ts.length : Int) ts

/-- `load_todos` from `main.c`, run at startup on the zero-initialized
globals: a missing file or a failing header `fread` leaves
`todo_count = 0`; otherwise `todo_count` becomes the header value and the
record `fread` fills as many slots as the file provides — its return value
is not checked, so slots past the end of the file keep their startup
zeros.  Result: the `todo_count` value and the store contents it denotes.
(Headers above `MAX_TODOS` overflow the C array — undefined behavior —
and negative headers make `fread` take a huge `size_t`; theorems restrict
to `0 ≤ hdr ≤ MAX_TODOS`.) -/
def load_todos (f : DataFile) : Int × List Todo :=
  match f with
  | .missing => (0, [])
  | .noHeader => (0, [])
  | .withData hdr recs =>
    (hdr, recs.take hdr.toNat ++ List.replicate (hdr.toNat - recs.length) zeroTodo)

/-! ## Helper lemmas -/

theorem beginsWith_iff (p l : List Char) :
    beginsWith l p = true ↔ ∃ post, l = p ++ post := by
  induction p generalizing l with
  | nil => simp [beginsWith]
  | cons n ns ih =>
    cases l with
    | nil => simp [beginsWith]
    | cons h hs =>
      simp only [beginsWith, Bool.and_eq_true, beq_iff_eq, ih, List.cons_append,
        List.cons.injEq]
      constructor
      · rintro ⟨rfl, post, rfl⟩
        exact ⟨post, rfl, rfl⟩
      · rintro ⟨post, rfl, rfl⟩
        exact ⟨rfl, post, rfl⟩

theorem hasSub_iff (needle hay : List Char) :
    hasSub needle hay = true ↔ ∃ pre post, hay = pre ++ needle ++ post := by
  induction hay with
  | nil =>
    simp only [hasSub, beginsWith_iff]
    constructor
    · rintro ⟨post, h⟩
      exact ⟨[], post, by simpa using h⟩
    · rintro ⟨pre, post, h⟩
      rcases List.append_eq_nil.mp h.symm with ⟨h1, h2⟩
      rcases List.append_eq_nil.mp h1 with ⟨rfl, rfl⟩
      exact ⟨[], by simp⟩
  | cons c hs ih =>
    simp only [hasSub, Bool.or_eq_true, beginsWith_iff, ih]
    constructor
    · rintro (⟨post, h⟩ | ⟨pre, post, h⟩)
      · exact ⟨[], post, by simpa using h⟩
      · exact ⟨c :: pre, post, by simp [h]⟩
    · rintro ⟨pre, post, h⟩
      cases pre with
      | nil => exact Or.inl ⟨post, by simpa using h⟩
      | cons x xs =>
        rcases List.cons.injEq .. ▸ h with ⟨rfl, h2⟩
        exact Or.inr ⟨xs, post, by simpa using h2⟩

/-- Characterization of `todo_matches_filter` as the conjunction of its
three criteria. -/
theorem todo_matches_filter_iff (f : FilterState) (t : Todo) :
    todo_matches_filter f t = true ↔
      ((f.filter_done = -1 ∨ b2i t.done = f.filter_done) ∧
       (f.filter_category = [] ∨ strcaseEq t.category f.filter_category = true) ∧
       (f.search_term = [] ∨ strcasestrB t.text f.search_term = true ∨
         strcasestrB t.category f.search_term = true)) := by
  unfold todo_matches_filter
  split_ifs with h1 h2 h3
  · simp only [Bool.and_eq_true, bne_iff_ne, ne_eq] at h1
    simp [h1.1, h1.2]
  · simp only [Bool.and_eq_true, Bool.not_eq_true', Bool.eq_false_iff,
      List.isEmpty_iff, ne_eq] at h2
    tauto
  · simp only [Bool.and_eq_true, Bool.not_eq_true', Bool.eq_false_iff,
      List.isEmpty_iff, ne_eq] at h3
    tauto
  · refine iff_of_true rfl ⟨?_, ?_, ?_⟩
    · by_cases hd : f.filter_done = -1
      · exact Or.inl hd
      · refine Or.inr ?_
        by_contra hne
        refine h1 ?_
        simp only [Bool.and_eq_true, bne_iff_ne, ne_eq]
        exact ⟨hd, hne⟩
    · by_cases hc : f.filter_category = []
      · exact Or.inl hc
      · refine Or.inr ?_
        by_contra hne
        refine h2 ?_
        simp only [Bool.and_eq_true, Bool.not_eq_true', List.isEmpty_eq_false, ne_eq]
        exact ⟨hc, Bool.eq_false_iff.mpr hne⟩
    · by_cases hst : f.search_term = []
      · exact Or.inl hst
      · by_cases ht : strcasestrB t.text f.search_term = true
        · exact Or.inr (Or.inl ht)
        · by_cases hc2 : strcasestrB t.category f.search_term = true
          · exact Or.inr (Or.inr hc2)
          · refine absurd ?_ h3
            simp only [Bool.and_eq_true, Bool.not_eq_true', List.isEmpty_eq_false, ne_eq]
            exact ⟨⟨hst, Bool.eq_false_iff.mpr ht⟩, Bool.eq_false_iff.mpr hc2⟩

/-! ## C1: filter predicate semantics -/

/-- The spec's wording of the visibility criteria (§4.1): status must
match the expected completion value when the status filter is active, the
category must be case-insensitively equal to the category filter in full,
and the search term must occur as a case-insensitive substring of the text
or the category. -/
def filter_spec (f : FilterState) (t : Todo) : Prop :=
  (f.filter_done ≠ -1 → (t.done = true ↔ f.filter_done = 1)) ∧
  (f.filter_category ≠ [] → t.category.map lcChar = f.filter_category.map lcChar) ∧
  (f.search_term ≠ [] →
    (∃ pre post, t.text.map lcChar = pre ++ f.search_term.map lcChar ++ post) ∨
    (∃ pre post, t.category.map lcChar = pre ++ f.search_term.map lcChar ++ post))

/-- C1: for every record and filter state (with the status filter one of
its three legal values), `todo_matches_filter` returns true iff all three
spec criteria hold: status equality when the status filter is active,
full case-insensitive category equality when the category filter is
non-empty, and case-insensitive substring occurrence of the search term
in text or category when the search term is non-empty. -/
theorem c1_filter_predicate_correct (f : FilterState) (t : Todo)
    (hfd : f.filter_done = -1 ∨ f.filter_done = 0 ∨ f.filter_done = 1) :
    todo_matches_filter f t = true ↔ filter_spec f t := by
  obtain ⟨tx, tc, td, tdn⟩ := t
  rw [todo_matches_filter_iff]
  unfold filter_spec
  have h1 : (f.filter_done = -1 ∨ b2i tdn = f.filter_done) ↔
      (f.filter_done ≠ -1 → (tdn = true ↔ f.filter_done = 1)) := by
    rcases hfd with h | h | h <;> rw [h] <;> cases tdn <;> simp [b2i]
  have h2 : (f.filter_category = [] ∨ strcaseEq tc f.filter_category = true) ↔
      (f.filter_category ≠ [] → List.map lcChar tc = List.map lcChar f.filter_category) := by
    rw [or_iff_not_imp_left]
    simp [strcaseEq]
  have h3 : (f.search_term = [] ∨ strcasestrB tx f.search_term = true ∨
        strcasestrB tc f.search_term = true) ↔
      (f.search_term ≠ [] →
        (∃ pre post, List.map lcChar tx = pre ++ List.map lcChar f.search_term ++ post) ∨
        (∃ pre post, List.map lcChar tc = pre ++ List.map lcChar f.search_term ++ post)) := by
    rw [or_iff_not_imp_left]
    simp [strcasestrB, hasSub_iff]
  exact and_congr h1 (and_congr h2 h3)

/-- Witness for C1 at a concrete record and filter state (status filter
"done", category filter "W", search term "m"). -/
theorem c1_filter_predicate_correct_witness :
    todo_matches_filter ⟨['W'], 1, ['m']⟩ ⟨['M', 'i', 'l', 'k'], ['w'], 0, true⟩ = true ↔
      filter_spec ⟨['W'], 1, ['m']⟩ ⟨['M', 'i', 'l', 'k'], ['w'], 0, true⟩ :=
  c1_filter_predicate_correct ⟨['W'], 1, ['m']⟩ ⟨['M', 'i', 'l', 'k'], ['w'], 0, true⟩
    (Or.inr (Or.inr rfl))

/-! ## C2: status filter cycling -/

/-- C2 (code bug): `filter_by_status` computes
`(filter_done + 1) % 3 - 1`, which maps each legal value to itself:
pressing `f` in state "all" (`-1`) leaves the filter at "all" instead of
advancing to "pending", and likewise for the other two states — the
claimed cycle all → pending → done → all never advances.  (The intended
update would have been `(filter_done + 2) % 3 - 1`.) -/
theorem c2_filter_by_status_is_identity :
    (filter_by_status ⟨[], 0, ⟨[], -1, []⟩⟩).filt.filter_done = -1 ∧
    (filter_by_status ⟨[], 0, ⟨[], 0, []⟩⟩).filt.filter_done = 0 ∧
    (filter_by_status ⟨[], 0, ⟨[], 1, []⟩⟩).filt.filter_done = 1 := by
  refine ⟨rfl, rfl, rfl⟩

/-! ## C3: save/load round trip -/

/-- C3: saving a store within capacity and field-length bounds and loading
the result reproduces the store exactly: the loaded count is the saved
count and every loaded record equals the saved one. -/
theorem c3_save_load_roundtrip (ts : List Todo)
    (hcap : ts.length ≤ MAX_TODOS)
    (hlen : ∀ t ∈ ts, t.text.length ≤ MAX_LENGTH - 1 ∧ t.category.length ≤ MAX_LENGTH - 1) :
    load_todos (save_todos ts) = ((ts.length : Int), ts) := by
  simp [load_todos, save_todos]

/-- Witness for C3 on a concrete one-record store. -/
theorem c3_save_load_roundtrip_witness :
    load_todos (save_todos [⟨['m'], ['w'], 7, true⟩]) = (1, [⟨['m'], ['w'], 7, true⟩]) :=
  c3_save_load_roundtrip [⟨['m'], ['w'], 7, true⟩] (by decide) (by decide)

/-! ## C4: load on a missing/short/truncated file -/

/-- C4 counterexample: a file whose header announces one record but which
contains none is "truncated" in the claim's sense, yet `load_todos` sets
the count to 1, not 0. -/
theorem c4_truncated_file_count_nonzero :
    (load_todos (DataFile.withData 1 [])).1 ≠ 0 := by decide

/-- C4 as amended: a missing file, or a file shorter than the count
header, leaves the store empty; but a file with a readable header
announcing `hdr` records and containing only `recs` of them yields count
`hdr` (not 0), with the present records loaded in order and every missing
slot holding the zero record left over from the zero-initialized array. -/
theorem c4_load_failure_behavior (hdr : Int) (recs : List Todo)
    (hpos : 0 ≤ hdr) (hcap : hdr.toNat ≤ MAX_TODOS) (htr : recs.length ≤ hdr.toNat) :
    load_todos DataFile.missing = (0, []) ∧
    load_todos DataFile.noHeader = (0, []) ∧
    (load_todos (DataFile.withData hdr recs)).1 = hdr ∧
    (load_todos (DataFile.withData hdr recs)).2.length = hdr.toNat ∧
    (∀ j, j < recs.length →
      (load_todos (DataFile.withData hdr recs)).2[j]? = recs[j]?) ∧
    (∀ j, recs.length ≤ j → j < hdr.toNat →
      (load_todos (DataFile.withData hdr recs)).2[j]? = some zeroTodo) := by
  refine ⟨rfl, rfl, rfl, ?_, ?_, ?_⟩
  · simp [load_todos]
    omega
  · intro j hj
    have h1 : j < hdr.toNat := lt_of_lt_of_le hj htr
    simp only [load_todos]
    rw [List.getElem?_append_left (by simp [List.length_take]; omega)]
    rw [List.getElem?_take]
    simp [h1]
  · intro j hj1 hj2
    have hlt : recs.length ≤ hdr.toNat := htr
    simp only [load_todos]
    rw [List.getElem?_append_right (by simp; omega)]
    rw [List.getElem?_eq_getElem (by simp; omega)]
    simp [List.getElem_replicate]

/-- Concrete sample record for witnesses. -/
def todoA : Todo := ⟨['a'], [], 0, false⟩

/-- Concrete sample record for witnesses. -/
def todoB : Todo := ⟨['b'], ['w'], 5, true⟩

/-- The startup filter state (`filter_category = ""`, `filter_done = -1`,
`search_term = ""`). -/
def emptyFilt : FilterState := ⟨[], -1, []⟩

/-- Concrete empty application state for witnesses. -/
def s0 : AppState := ⟨[], 0, emptyFilt⟩

/-- Concrete two-record application state for witnesses. -/
def s2 : AppState := ⟨[todoA, todoB], 1, emptyFilt⟩

/-- Witness for the amended C4 statement at header 2 over a one-record
file body. -/
theorem c4_load_failure_behavior_witness :
    load_todos DataFile.missing = (0, []) ∧
    load_todos DataFile.noHeader = (0, []) ∧
    (load_todos (DataFile.withData 2 [todoA])).1 = 2 ∧
    (load_todos (DataFile.withData 2 [todoA])).2.length = (2 : Int).toNat ∧
    (∀ j, j < [todoA].length →
      (load_todos (DataFile.withData 2 [todoA])).2[j]? = [todoA][j]?) ∧
    (∀ j, [todoA].length ≤ j → j < (2 : Int).toNat →
      (load_todos (DataFile.withData 2 [todoA])).2[j]? = some zeroTodo) :=
  c4_load_failure_behavior 2 [todoA] (by decide) (by decide) (by decide)

/-! ## C5: Add -/

/-- C5: with a line that fits the text buffer, `add_todo` on non-empty
input below capacity appends exactly one record carrying the input text,
an empty category, a zero due date and `done = false`, leaves the
pre-existing records and the filter state unchanged, and moves the
selection to the new last index; on empty input or a full store it is a
no-op. -/
theorem c5_add_todo (s : AppState) (input : List Char)
    (hlen : input.length ≤ MAX_LENGTH - 1) :
    (input ≠ [] ∧ s.todos.length < MAX_TODOS →
      (add_todo input s).todos = s.todos ++ [⟨input, [], 0, false⟩] ∧
      (add_todo input s).selected = (s.todos.length : Int) ∧
      (add_todo input s).filt = s.filt) ∧
    ((input = [] ∨ MAX_TODOS ≤ s.todos.length) → add_todo input s = s) := by
  constructor
  · rintro ⟨h1, h2⟩
    unfold add_todo
    split_ifs with hc
    · refine ⟨?_, ?_, rfl⟩
      · simp [List.take_of_length_le hlen]
      · simp
    · exact absurd ⟨h1, h2⟩ hc
  · intro h
    unfold add_todo
    split_ifs with hc
    · rcases h with h | h
      · exact absurd h hc.1
      · exact absurd hc.2 (by omega)
    · rfl

/-- Witness for C5: adding "x" to the empty store. -/
theorem c5_add_todo_witness :
    ((['x'] ≠ ([] : List Char) ∧ s0.todos.length < MAX_TODOS →
      (add_todo ['x'] s0).todos = s0.todos ++ [⟨['x'], [], 0, false⟩] ∧
      (add_todo ['x'] s0).selected = (s0.todos.length : Int) ∧
      (add_todo ['x'] s0).filt = s0.filt) ∧
    ((['x'] = ([] : List Char) ∨ MAX_TODOS ≤ s0.todos.length) → add_todo ['x'] s0 = s0)) :=
  c5_add_todo s0 ['x'] (by decide)

/-! ## C6: Delete -/

/-- C6: deleting a valid index `i` from a store of size `n ≥ 1` (with the
selection inside the store, as the dispatch loop maintains) shrinks the
store to `n - 1` records, keeps the records before `i` in place, moves
each record after `i` one position left, and adjusts the selection: a
selection at the old last position (the only way to sit at or beyond the
new end) moves to the new last valid index, or stays at 0 when the store
empties; any selection strictly before the new end is untouched. -/
theorem c6_delete_todo (s : AppState) (i : Nat)
    (hn : 1 ≤ s.todos.length) (hi : i < s.todos.length)
    (hsel0 : 0 ≤ s.selected) (hsel : s.selected < (s.todos.length : Int)) :
    (delete_todo i s).todos.length = s.todos.length - 1 ∧
    (∀ j, j < i → (delete_todo i s).todos[j]? = s.todos[j]?) ∧
    (∀ j, i ≤ j → j < s.todos.length - 1 →
      (delete_todo i s).todos[j]? = s.todos[j + 1]?) ∧
    (s.selected = (s.todos.length : Int) - 1 →
      (delete_todo i s).selected =
        (if s.todos.length = 1 then 0 else (s.todos.length : Int) - 2)) ∧
    (s.selected < (s.todos.length : Int) - 1 → (delete_todo i s).selected = s.selected) := by
  obtain ⟨ts, sel, fl⟩ := s
  dsimp only at hn hi hsel0 hsel ⊢
  have hlen1 : (ts.take i ++ ts.drop (i + 1)).length = ts.length - 1 := by
    simp [List.length_take, List.length_drop]
    omega
  have hts : (ts.take i ++ ts.drop (i + 1)).take (ts.length - 1) =
      ts.take i ++ ts.drop (i + 1) := by
    apply List.take_of_length_le
    omega
  have hd : delete_todo i ⟨ts, sel, fl⟩ =
      ⟨ts.take i ++ ts.drop (i + 1),
       if ((ts.length - 1 : Nat) : Int) ≤ sel ∧ 0 < sel then sel - 1 else sel, fl⟩ := by
    simp only [delete_todo]
    rw [hts, hlen1]
  rw [hd]
  dsimp only
  refine ⟨hlen1, ?_, ?_, ?_, ?_⟩
  · intro j hj
    rw [List.getElem?_append_left (by simp [List.length_take]; omega)]
    rw [List.getElem?_take]
    simp [hj]
  · intro j hj1 hj2
    rw [List.getElem?_append_right (by simp [List.length_take]; omega)]
    rw [List.getElem?_drop]
    congr 1
    simp [List.length_take]
    omega
  · intro hlast
    split_ifs with hc hone hone <;> omega
  · intro hlt
    split_ifs with hc
    · omega
    · rfl

/-- Witness for C6: deleting index 0 from the concrete two-record store
(selection at index 1, the old last position). -/
theorem c6_delete_todo_witness :
    (delete_todo 0 s2).todos.length = s2.todos.length - 1 ∧
    (∀ j, j < 0 → (delete_todo 0 s2).todos[j]? = s2.todos[j]?) ∧
    (∀ j, 0 ≤ j → j < s2.todos.length - 1 →
      (delete_todo 0 s2).todos[j]? = s2.todos[j + 1]?) ∧
    (s2.selected = (s2.todos.length : Int) - 1 →
      (delete_todo 0 s2).selected =
        (if s2.todos.length = 1 then 0 else (s2.todos.length : Int) - 2)) ∧
    (s2.selected < (s2.todos.length : Int) - 1 → (delete_todo 0 s2).selected = s2.selected) :=
  c6_delete_todo s2 0 (by decide) (by decide) (by decide) (by decide)

/-! ## C7: SetDueDate -/

theorem listUpd_length {α : Type} (l : List α) (i : Nat) (g : α → α) :
    (listUpd l i g).length = l.length := by
  induction l generalizing i with
  | nil => rfl
  | cons x xs ih =>
    cases i with
    | zero => rfl
    | succ n => simp [listUpd, ih]

theorem listUpd_getElem_ne {α : Type} (l : List α) (i j : Nat) (g : α → α)
    (h : j ≠ i) : (listUpd l i g)[j]? = l[j]? := by
  induction l generalizing i j with
  | nil => rfl
  | cons x xs ih =>
    cases i with
    | zero =>
      cases j with
      | zero => exact absurd rfl h
      | succ m => simp [listUpd]
    | succ n =>
      cases j with
      | zero => simp [listUpd]
      | succ m =>
        simp only [listUpd, List.getElem?_cons_succ]
        exact ih n m (fun hh => h (by omega))

theorem listUpd_getElem_eq {α : Type} (l : List α) (i : Nat) (g : α → α) :
    (listUpd l i g)[i]? = (l[i]?).map g := by
  induction l generalizing i with
  | nil => rfl
  | cons x xs ih =>
    cases i with
    | zero => simp [listUpd]
    | succ n =>
      simp only [listUpd, List.getElem?_cons_succ]
      exact ih n

/-- C7: on a valid index, `set_due_date` with empty input clears the due
date to 0; with input that fails to parse as three `%d` components it
leaves the store untouched; with input parsing as components `(y, m, d)` —
in range or not — it stores `mktime` applied to the adjusted components.
In every case all other fields of record `i`, all other records, the
selection and the filter state are unchanged. -/
theorem c7_set_due_date (mkt : Int → Int → Int → Int) (input : List Char)
    (i : Nat) (s : AppState) (t : Todo) (ht : s.todos[i]? = some t) :
    (set_due_date mkt input i s).todos.length = s.todos.length ∧
    (∀ j, j ≠ i → (set_due_date mkt input i s).todos[j]? = s.todos[j]?) ∧
    (set_due_date mkt input i s).selected = s.selected ∧
    (set_due_date mkt input i s).filt = s.filt ∧
    (set_due_date mkt input i s).todos[i]? =
      some { t with due_date :=
        (if input = [] then 0
         else match scanDate input with
              | some (y, m, d) => mkt (y - 1900) (m - 1) d
              | none => t.due_date) } := by
  obtain ⟨tx, tc, td, tdn⟩ := t
  unfold set_due_date
  split_ifs with hemp
  · refine ⟨listUpd_length .., fun j hj => listUpd_getElem_ne _ _ _ _ hj, rfl, rfl, ?_⟩
    rw [listUpd_getElem_eq, ht]
    rfl
  · rcases hsc : scanDate input with _ | ⟨y, m, d⟩
    · refine ⟨rfl, fun j hj => rfl, rfl, rfl, ?_⟩
      rw [ht]
    · refine ⟨listUpd_length .., fun j hj => listUpd_getElem_ne _ _ _ _ hj, rfl, rfl, ?_⟩
      rw [listUpd_getElem_eq, ht]
      rfl

/-- Witness for C7: clearing the due date of record 1 of the concrete
store with empty input. -/
theorem c7_set_due_date_witness :
    (set_due_date (fun _ _ _ => 0) [] 1 s2).todos.length = s2.todos.length ∧
    (∀ j, j ≠ 1 → (set_due_date (fun _ _ _ => 0) [] 1 s2).todos[j]? = s2.todos[j]?) ∧
    (set_due_date (fun _ _ _ => 0) [] 1 s2).selected = s2.selected ∧
    (set_due_date (fun _ _ _ => 0) [] 1 s2).filt = s2.filt ∧
    (set_due_date (fun _ _ _ => 0) [] 1 s2).todos[1]? =
      some { todoB with due_date :=
        (if ([] : List Char) = [] then 0
         else match scanDate [] with
              | some (y, m, d) => (fun _ _ _ => (0 : Int)) (y - 1900) (m - 1) d
              | none => todoB.due_date) } :=
  c7_set_due_date (fun _ _ _ => 0) [] 1 s2 todoB (by decide)

/-! ## C8: filter monotonicity -/

/-- `g` strengthens `f` by exactly one criterion: it activates the status
filter where `f` had "all", or sets a non-empty category filter where `f`
had none, or sets a non-empty search term where `f` had none, leaving the
other two criteria as in `f`. -/
def addsOneCriterion (f g : FilterState) : Prop :=
  (f.filter_done = -1 ∧ (g.filter_done = 0 ∨ g.filter_done = 1) ∧
    g.filter_category = f.filter_category ∧ g.search_term = f.search_term) ∨
  (f.filter_category = [] ∧ g.filter_category ≠ [] ∧
    g.filter_done = f.filter_done ∧ g.search_term = f.search_term) ∨
  (f.search_term = [] ∧ g.search_term ≠ [] ∧
    g.filter_done = f.filter_done ∧ g.filter_category = f.filter_category)

/-- C8: the filter predicate is monotonic in the filter state — a record
visible under a filter strengthened by one extra criterion was already
visible under the weaker filter, so adding a criterion never grows the
visible set. -/
theorem c8_filter_monotonic (f g : FilterState) (t : Todo)
    (hstr : addsOneCriterion f g)
    (hpass : todo_matches_filter g t = true) :
    todo_matches_filter f t = true := by
  rw [todo_matches_filter_iff] at hpass ⊢
  obtain ⟨hp1, hp2, hp3⟩ := hpass
  rcases hstr with ⟨h1, _, h3, h4⟩ | ⟨h1, _, h3, h4⟩ | ⟨h1, _, h3, h4⟩
  · refine ⟨Or.inl h1, ?_, ?_⟩
    · rw [← h3]; exact hp2
    · rw [← h4]; exact hp3
  · refine ⟨?_, Or.inl h1, ?_⟩
    · rw [← h3]; exact hp1
    · rw [← h4]; exact hp3
  · refine ⟨?_, ?_, Or.inl h1⟩
    · rw [← h3]; exact hp1
    · rw [← h4]; exact hp2

/-- Witness for C8: activating the "pending" status filter over the empty
filter state keeps the not-done record `todoA` visible. -/
theorem c8_filter_monotonic_witness :
    todo_matches_filter emptyFilt todoA = true :=
  c8_filter_monotonic emptyFilt ⟨[], 0, []⟩ todoA
    (Or.inl ⟨rfl, Or.inl rfl, rfl, rfl⟩) (by decide)

/-! ## C9: selection invariant -/

/-- The spec's selection invariant: whenever the store is non-empty the
cursor is a valid index into the unfiltered store; an empty store leaves
it unconstrained. -/
def SelInv (s : AppState) : Prop :=
  0 < s.todos.length → 0 ≤ s.selected ∧ s.selected < (s.todos.length : Int)

/-- Computed form of `delete_todo` at a valid index. -/
theorem delete_todo_spec (s : AppState) (i : Nat) (hi : i < s.todos.length) :
    (delete_todo i s).todos.length = s.todos.length - 1 ∧
    (delete_todo i s).selected =
      (if ((s.todos.length - 1 : Nat) : Int) ≤ s.selected ∧ 0 < s.selected
       then s.selected - 1 else s.selected) := by
  obtain ⟨ts, sel, fl⟩ := s
  dsimp only at hi ⊢
  have hts : (ts.take i ++ ts.drop (i + 1)).take (ts.length - 1) =
      ts.take i ++ ts.drop (i + 1) := by
    apply List.take_of_length_le
    simp [List.length_take, List.length_drop]
    omega
  have hlen1 : (ts.take i ++ ts.drop (i + 1)).length = ts.length - 1 := by
    simp [List.length_take, List.length_drop]
    omega
  have hd : delete_todo i ⟨ts, sel, fl⟩ =
      ⟨ts.take i ++ ts.drop (i + 1),
       if ((ts.length - 1 : Nat) : Int) ≤ sel ∧ 0 < sel then sel - 1 else sel, fl⟩ := by
    simp only [delete_todo]
    rw [hts, hlen1]
  rw [hd]
  exact ⟨hlen1, rfl⟩

/-- An operation that preserves the store length and the selection
preserves the selection invariant. -/
theorem selInv_of_eq (s s' : AppState) (hlen : s'.todos.length = s.todos.length)
    (hsel : s'.selected = s.selected) (h : SelInv s) : SelInv s' := by
  unfold SelInv at h ⊢
  rw [hlen, hsel]
  exact h

/-- C9: every key reachable from the dispatch loop preserves the
selection invariant — navigation, Add, Delete, the record editors and the
filter operations all leave the cursor inside `[0, count)` whenever the
store is non-empty. -/
theorem c9_selection_invariant (mkt : Int → Int → Int → Int) (k : Key) (s : AppState)
    (h : SelInv s) : SelInv (step mkt k s) := by
  obtain ⟨ts, sel, fl⟩ := s
  have hh : 0 < ts.length → 0 ≤ sel ∧ sel < (ts.length : Int) := h
  cases k with
  | keyJ =>
    dsimp only [step]
    split_ifs with hc
    · intro hl
      dsimp only at hl hc ⊢
      have := hh hl
      omega
    · exact h
  | keyK =>
    dsimp only [step]
    split_ifs with hc
    · intro hl
      dsimp only at hl hc ⊢
      have := hh hl
      omega
    · exact h
  | keyA input =>
    dsimp only [step, add_todo]
    split_ifs with hc
    · intro hl
      dsimp only at hl ⊢
      simp only [List.length_append, List.length_cons, List.length_nil] at hl ⊢
      push_cast
      omega
    · exact h
  | keyD =>
    dsimp only [step]
    split_ifs with hc
    · obtain ⟨h0, h1⟩ := hh hc
      have hi : sel.toNat < ts.length := by omega
      obtain ⟨hl, hs⟩ := delete_todo_spec ⟨ts, sel, fl⟩ sel.toNat hi
      dsimp only at hl hs
      intro hpos
      rw [hl] at hpos ⊢
      split_ifs at hs <;> omega
    · exact h
  | keySpace =>
    dsimp only [step, toggle_todo]
    split_ifs with hc
    · intro hl
      dsimp only at hl ⊢
      rw [listUpd_length] at hl ⊢
      exact hh hl
    · exact h
  | keyE input =>
    dsimp only [step, edit_todo]
    split_ifs with hc hne
    · intro hl
      dsimp only at hl ⊢
      rw [listUpd_length] at hl ⊢
      exact hh hl
    · exact h
    · exact h
  | keyBigD input =>
    dsimp only [step, set_due_date]
    split_ifs with hc hemp
    · intro hl
      dsimp only at hl ⊢
      rw [listUpd_length] at hl ⊢
      exact hh hl
    · rcases scanDate input with _ | ⟨y, m, d⟩
      · exact h
      · intro hl
        dsimp only at hl ⊢
        rw [listUpd_length] at hl ⊢
        exact hh hl
    · exact h
  | keyC input =>
    dsimp only [step, set_category]
    split_ifs with hc
    · intro hl
      dsimp only at hl ⊢
      rw [listUpd_length] at hl ⊢
      exact hh hl
    · exact h
  | keyBigC input =>
    dsimp only [step, filter_by_category]
    intro hl
    dsimp only at hl ⊢
    exact ⟨le_refl 0, by exact_mod_cast hl⟩
  | keyF =>
    dsimp only [step, filter_by_status]
    intro hl
    dsimp only at hl ⊢
    exact ⟨le_refl 0, by exact_mod_cast hl⟩
  | keySlash input =>
    dsimp only [step, search_todos]
    intro hl
    dsimp only at hl ⊢
    exact ⟨le_refl 0, by exact_mod_cast hl⟩
  | keyR => exact h
  | other => exact h

/-- Witness for C9: pressing `j` on the concrete two-record store keeps
the selection in range. -/
theorem c9_selection_invariant_witness :
    SelInv (step (fun _ _ _ => 0) Key.keyJ s2) :=
  c9_selection_invariant (fun _ _ _ => 0) Key.keyJ s2
    (fun _ => by constructor <;> decide)

/-! ## C10: selection resets on filter changes -/

/-- C10: setting the category filter (`C`), cycling the status filter
(`f`) and setting the search term (`/`) each reset the selection to 0
unconditionally, for every state and every entered line; resetting the
filters (`r`) clears all three filter criteria but leaves the selection
(and the store) untouched. -/
theorem c10_filter_ops_selection (mkt : Int → Int → Int → Int) (s : AppState)
    (inpC inpS : List Char) :
    (step mkt (Key.keyBigC inpC) s).selected = 0 ∧
    (step mkt Key.keyF s).selected = 0 ∧
    (step mkt (Key.keySlash inpS) s).selected = 0 ∧
    (step mkt Key.keyR s).selected = s.selected ∧
    (step mkt Key.keyR s).filt = ⟨[], -1, []⟩ ∧
    (step mkt Key.keyR s).todos = s.todos := by
  exact ⟨rfl, rfl, rfl, rfl, rfl, rfl⟩
